import Mathlib

set_option maxRecDepth 4000

/-!
Verification of the bisection root-finder `Find` from the Go package `root`
(generic version with the `ErrorFind` taxonomy).

The embedding is shallow: x-coordinates are exact rationals `ℚ`; the values
returned by the caller-supplied evaluator live in the type `F`, which carries
the IEEE special values (NaN and signed infinity) that the solver's guards
inspect.  An evaluator call can succeed, fail with the evaluator's native
error, or raise a panic; the solver's `recover` boundary turns a panic into a
`Recovery`-kind error.  Each result records the total number of evaluator
invocations so that the bounded-work property can be stated.
-/

namespace RootGo

/-- Go package variable `Precision float64 = 1e-6`. -/
def Precision : ℚ := 1/1000000

/-- Go package variable `MaxIteration int = 500`. -/
def MaxIteration : ℕ := 500

/-- Value domain of the evaluator: a finite rational, NaN, or a signed
infinity (`inf true` is `-Inf`, i.e. the sign bit is set). -/
inductive F where
  | fin (q : ℚ)
  | nan
  | inf (neg : Bool)
deriving DecidableEq

/-- Go `math.Signbit` on the embedded values: negative rationals have the
sign bit set, `math.NaN()` has a clear sign bit, `-Inf` has it set. -/
def F.signbit : F → Bool
  | .fin q => decide (q < 0)
  | .nan => false
  | .inf neg => neg

/-- Go `math.Abs(y) < p`: false for NaN (`Abs(NaN) = NaN`) and for
infinities (`Abs(±Inf) = +Inf`). -/
def F.absLt (y : F) (p : ℚ) : Bool :=
  match y with
  | .fin q => decide (|q| < p)
  | .nan => false
  | .inf _ => false

/-- Go `math.IsNaN`. -/
def F.isNaN : F → Bool
  | .nan => true
  | _ => false

/-- Go `math.IsInf(·, 0)`. -/
def F.isInf : F → Bool
  | .inf _ => true
  | _ => false

/-- Go `math.IsNaN` applied to an x-coordinate.  Exact rational arithmetic
never produces NaN, so on the embedded x-domain the test is constantly
false; the guard is kept so the solver's control flow matches the source. -/
def qIsNaN (_ : ℚ) : Bool := false

/-- Go `math.IsInf(·, 0)` applied to an x-coordinate; constantly false on
exact rationals, kept for structural fidelity with the source. -/
def qIsInf (_ : ℚ) : Bool := false

/-- Outcome of one evaluator invocation `f(x)`: a value together with a nil
error, a value together with a non-nil native error `e`, or a panic. -/
inductive EvalR (E : Type) where
  | ok (y : F)
  | fail (e : E)
  | panicked (e : E)
deriving DecidableEq

/-- Whether the invocation panicked. -/
def EvalR.isPanicked : EvalR E → Bool
  | .panicked _ => true
  | _ => false

/-- Go `ErrType` enumeration (source lines 214-221). -/
inductive ErrType where
  | maximalIteration
  | internalErr
  | notValidValue
  | recovery
deriving DecidableEq

/-- An error returned by `Find`: either the evaluator's native error value
returned as-is, or an `ErrorFind{Type, Err}` wrapper whose inner error is
the evaluator's error when one was wrapped (`some e`) and a formatted
message otherwise (`none`). -/
inductive FindErr (E : Type) where
  | native (e : E)
  | wrapped (t : ErrType) (inner : Option E)
deriving DecidableEq

/-- The pair `(root, err)` returned by `Find`, instrumented with the number
of evaluator invocations performed.  `err = none` is Go's nil error. -/
structure FindResult (E : Type) where
  root : ℚ
  err : Option (FindErr E)
  calls : ℕ
deriving DecidableEq

/-- Add `n` to the recorded number of evaluator invocations. -/
def addCalls (n : ℕ) (r : FindResult E) : FindResult E :=
  ⟨r.root, r.err, r.calls + n⟩

/-- The mutable state of the iteration loop: the three tracked samples
(left endpoint, right endpoint, midpoint).  Field names follow the source,
including the `xRigth` spelling. -/
structure LoopState where
  xLeft : ℚ
  xRigth : ℚ
  xRoot : ℚ
  yLeft : F
  yRoot : F
  yRigth : F
deriving DecidableEq

/-- The `middle` closure of the source: `xLeft + (xRigth-xLeft)/2.0`. -/
def middle (xLeft xRigth : ℚ) : ℚ := xLeft + (xRigth - xLeft)/2

/-- The convergence test at the top of the loop body (source lines 339-347):
if `xLeft == 0` the absolute bracket width is compared against the
precision, otherwise the width relative to the left endpoint. -/
def convergenceTest (prec xLeft xRigth : ℚ) (yRoot : F) : Bool :=
  if xLeft = 0 then
    yRoot.absLt prec && decide (|xRigth - xLeft| < prec)
  else
    yRoot.absLt prec && decide (|(xRigth - xLeft)/xLeft| < prec)

/-- Result of one execution of the loop body (after the iteration-cap
check): either the function returns (`done`), or the loop continues with an
updated state after one evaluator invocation (`next`). -/
inductive StepOut (E : Type) where
  | done (r : FindResult E)
  | next (st : LoopState)
deriving DecidableEq

/-- Tail of the loop body shared by both sign branches (source lines
360-396): recompute the midpoint from the updated endpoints, evaluate `f`
there (wrapping a returned failure as `InternalErr`, a panic as
`Recovery`), then run the NaN/Inf guards in source order (x NaN, y NaN,
x Inf, y Inf), each aborting with `NotValidValue`. -/
def continueFrom (f : ℚ → EvalR E) (xLeft xRigth : ℚ) (yLeft yRigth : F) :
    StepOut E :=
  let xRoot := middle xLeft xRigth
  match f xRoot with
  | .panicked _ => .done ⟨0, some (.wrapped .recovery none), 1⟩
  | .fail e => .done ⟨0, some (.wrapped .internalErr (some e)), 1⟩
  | .ok yRoot =>
    if qIsNaN xRoot then .done ⟨0, some (.wrapped .notValidValue none), 1⟩
    else if yRoot.isNaN then .done ⟨0, some (.wrapped .notValidValue none), 1⟩
    else if qIsInf xRoot then .done ⟨0, some (.wrapped .notValidValue none), 1⟩
    else if yRoot.isInf then .done ⟨0, some (.wrapped .notValidValue none), 1⟩
    else .next ⟨xLeft, xRigth, xRoot, yLeft, yRoot, yRigth⟩

/-- One loop-body execution (source lines 339-396, after the cap check):
convergence test (on success, break and run the final confirmatory
evaluation at the midpoint, whose native error or panic is surfaced); else
the sign-bit comparison selecting the half to discard.  Discarding the
right half copies only the x-coordinate (`xRigth, yRigth = xRoot, yRigth`
self-assigns the y-value, exactly as in the source); discarding the left
half copies both (`xLeft, yLeft = xRoot, yRoot`).  When no sign change is
seen, abort with `InternalErr`. -/
def loopStep (f : ℚ → EvalR E) (prec : ℚ) (st : LoopState) : StepOut E :=
  if convergenceTest prec st.xLeft st.xRigth st.yRoot then
    match f st.xRoot with
    | .ok _ => .done ⟨st.xRoot, none, 1⟩
    | .fail e => .done ⟨st.xRoot, some (.native e), 1⟩
    | .panicked _ => .done ⟨st.xRoot, some (.wrapped .recovery none), 1⟩
  else if st.yLeft.signbit != st.yRoot.signbit then
    continueFrom f st.xLeft st.xRoot st.yLeft st.yRigth
  else if st.yRoot.signbit != st.yRigth.signbit then
    continueFrom f st.xRoot st.xRigth st.yRoot st.yRigth
  else
    .done ⟨0, some (.wrapped .internalErr none), 0⟩

/-- The iteration loop (source lines 330-397).  `fuel` is the number of
iterations still allowed before `iter >= maxIter` triggers, so fuel `0`
is the cap check firing with error kind `MaximalIteration`. -/
def loopGo (f : ℚ → EvalR E) (prec : ℚ) : ℕ → LoopState → FindResult E
  | 0, _ => ⟨0, some (.wrapped .maximalIteration none), 0⟩
  | fuel+1, st =>
    match loopStep f prec st with
    | .done r => r
    | .next st1 => addCalls 1 (loopGo f prec fuel st1)

/-- The body of `Find` (source lines 260-401), parameterized by the values
read from the package variables `Precision` and `MaxIteration`: normalize
the bounds by swapping, evaluate `f` at the left endpoint, the midpoint and
the right endpoint (a panic in any of the three is recovered immediately),
check the three errors in the order left, right, midpoint and return the
first non-nil one as the evaluator's native error, take a fast-path exit
when an endpoint value is already within precision (with one confirmatory
re-evaluation), and otherwise enter the iteration loop. -/
def FindWith (f : ℚ → EvalR E) (minX maxX : ℚ) (prec : ℚ) (maxIter : ℕ) :
    FindResult E :=
  let lo := if minX > maxX then maxX else minX
  let hi := if minX > maxX then minX else maxX
  let xRoot := middle lo hi
  match f lo, f xRoot, f hi with
  | .panicked _, _, _ => ⟨0, some (.wrapped .recovery none), 1⟩
  | _, .panicked _, _ => ⟨0, some (.wrapped .recovery none), 2⟩
  | _, _, .panicked _ => ⟨0, some (.wrapped .recovery none), 3⟩
  | .fail e, _, _ => ⟨0, some (.native e), 3⟩
  | _, _, .fail e => ⟨0, some (.native e), 3⟩
  | _, .fail e, _ => ⟨0, some (.native e), 3⟩
  | .ok yLeft, .ok yRoot, .ok yRigth =>
    if yLeft.absLt prec then
      match f lo with
      | .ok _ => ⟨lo, none, 4⟩
      | .fail e => ⟨lo, some (.native e), 4⟩
      | .panicked _ => ⟨lo, some (.wrapped .recovery none), 4⟩
    else if yRigth.absLt prec then
      match f hi with
      | .ok _ => ⟨hi, none, 4⟩
      | .fail e => ⟨hi, some (.native e), 4⟩
      | .panicked _ => ⟨hi, some (.wrapped .recovery none), 4⟩
    else
      addCalls 3 (loopGo f prec maxIter ⟨lo, hi, xRoot, yLeft, yRoot, yRigth⟩)

/-- Go `Find(f, minX, maxX)` with the default package configuration. -/
def Find (f : ℚ → EvalR E) (minX maxX : ℚ) : FindResult E :=
  FindWith f minX maxX Precision MaxIteration

/-- Modelled from the spec's words for the refinement claim about the
convergence test: converged when `|y(midpoint)| < Precision` and the
bracket-width measure is below `Precision`, the measure being the absolute
width `|right - left|` when the left endpoint equals exactly zero and the
relative width `|(right - left)/left|` otherwise. -/
def specConverged (prec xLeft xRigth : ℚ) (yRoot : F) : Bool :=
  yRoot.absLt prec &&
    decide ((if xLeft = 0 then |xRigth - xLeft| else |(xRigth - xLeft)/xLeft|) < prec)

/-- Loop invariant used for the convergence claim: the endpoints stay
inside the normalized input bracket `[lo, hi]`, the tracked midpoint is the
arithmetic middle of the current endpoints, and the midpoint sample is the
value `f` actually returns there. -/
def LoopInv (f : ℚ → EvalR E) (lo hi : ℚ) (st : LoopState) : Prop :=
  lo ≤ st.xLeft ∧ st.xLeft ≤ st.xRigth ∧ st.xRigth ≤ hi ∧
  st.xRoot = middle st.xLeft st.xRigth ∧ f st.xRoot = EvalR.ok st.yRoot

/-- Evaluator `f(x) = x`, the spec's known-root example. -/
def idF : ℚ → EvalR Unit := fun x => .ok (.fin x)

/-- Evaluator `f(x) = 2x + 5` from `TestNoRoot`: always positive on `[0,1]`. -/
def linF : ℚ → EvalR Unit := fun x => .ok (.fin (2*x + 5))

/-- Evaluator that panics on every input, as in `TestPanic`. -/
def panicF : ℚ → EvalR Unit := fun _ => .panicked ()

/-- Piecewise evaluator with `f(0) = -1`, `f(x) = +1` on `[0.3, 0.6]` and
`f(x) = -1` to the right of `0.6`: it changes sign on `[1/4, 1/2]`, yet the
stale right sample makes the solver report that no root is bracketed. -/
def f2 : ℚ → EvalR Unit := fun x =>
  if x < 3/10 then .ok (.fin (-1)) else if x ≤ 6/10 then .ok (.fin 1) else .ok (.fin (-1))

/-- Sign-changing step function whose values never get below the precision
threshold, so the iteration cap is the only way out of the loop. -/
def jumpF : ℚ → EvalR Unit := fun x => .ok (.fin (if x < 1 then -1 else 1))

/-- Evaluator returning NaN exactly at `1/4`, the first in-loop midpoint of
the bracket `[0, 1]`, and a sign change otherwise. -/
def f8 : ℚ → EvalR Unit := fun x =>
  if x = 1/4 then .ok .nan else if x < 1/2 then .ok (.fin (-1)) else .ok (.fin 1)

/-- `TestNoSomeRoot` left case: the evaluator fails for `x < 0.5`. -/
def fLeft : ℚ → EvalR Unit := fun x =>
  if x < 1/2 then .fail () else .ok (.fin (2*x + 5))

/-- `TestNoSomeRoot` center case: the evaluator fails exactly at `x = 0.5`. -/
def fCenter : ℚ → EvalR Unit := fun x =>
  if x = 1/2 then .fail () else .ok (.fin (2*x + 5))

/-- `TestNoSomeRoot` right case: the evaluator fails for `x > 0.5`. -/
def fRigth : ℚ → EvalR Unit := fun x =>
  if x > 1/2 then .fail () else .ok (.fin (2*x + 5))

/-- Evaluator failing exactly at `1/4`, the first midpoint computed inside
the iteration loop on the bracket `[0, 1]`. -/
def fLoopFail : ℚ → EvalR Unit := fun x =>
  if x = 1/4 then .fail () else if x < 1/2 then .ok (.fin (-1)) else .ok (.fin 1)

theorem middle_mem {xLeft xRigth : ℚ} (h : xLeft ≤ xRigth) :
    xLeft ≤ middle xLeft xRigth ∧ middle xLeft xRigth ≤ xRigth := by
  unfold middle
  constructor <;> linarith

theorem convergenceTest_absLt {prec xLeft xRigth : ℚ} {yRoot : F}
    (h : convergenceTest prec xLeft xRigth yRoot = true) :
    yRoot.absLt prec = true := by
  unfold convergenceTest at h
  split at h <;> exact (Bool.and_eq_true _ _ ▸ h).1

theorem continueFrom_done {f : ℚ → EvalR E} {a b : ℚ} {yL yR : F} {r : FindResult E}
    (h : continueFrom f a b yL yR = .done r) :
    (∃ fe, r.err = some fe) ∧ r.calls ≤ 1 := by
  unfold continueFrom at h
  rcases hf : f (middle a b) with y | e | e <;> simp only [hf] at h
  · rcases y with q | _ | neg <;>
      simp only [F.isNaN, F.isInf, qIsNaN, qIsInf, Bool.false_eq_true,
        if_false, if_true] at h
    · exact absurd h (by simp)
    · obtain rfl : _ = r := (StepOut.done.injEq _ _).mp h
      exact ⟨⟨_, rfl⟩, le_refl 1⟩
    · obtain rfl : _ = r := (StepOut.done.injEq _ _).mp h
      exact ⟨⟨_, rfl⟩, le_refl 1⟩
  · obtain rfl : _ = r := (StepOut.done.injEq _ _).mp h
    exact ⟨⟨_, rfl⟩, le_refl 1⟩
  · obtain rfl : _ = r := (StepOut.done.injEq _ _).mp h
    exact ⟨⟨_, rfl⟩, le_refl 1⟩

theorem continueFrom_next {f : ℚ → EvalR E} {a b : ℚ} {yL yR : F} {st1 : LoopState}
    (h : continueFrom f a b yL yR = .next st1) :
    ∃ y, f (middle a b) = .ok y ∧ st1 = ⟨a, b, middle a b, yL, y, yR⟩ := by
  unfold continueFrom at h
  rcases hf : f (middle a b) with y | e | e <;> simp only [hf] at h
  · rcases y with q | _ | neg <;>
      simp only [F.isNaN, F.isInf, qIsNaN, qIsInf, Bool.false_eq_true,
        if_false, if_true] at h
    · obtain rfl : _ = st1 := (StepOut.next.injEq _ _).mp h
      exact ⟨.fin q, rfl, rfl⟩
    · exact absurd h (by simp)
    · exact absurd h (by simp)
  · exact absurd h (by simp)
  · exact absurd h (by simp)

theorem loopStep_done_calls {f : ℚ → EvalR E} {prec : ℚ} {st : LoopState}
    {r : FindResult E} (h : loopStep f prec st = .done r) : r.calls ≤ 1 := by
  unfold loopStep at h
  split at h
  · rcases hf : f st.xRoot with y | e | e <;> simp only [hf] at h <;>
      (obtain rfl : _ = r := (StepOut.done.injEq _ _).mp h; exact le_refl 1)
  · split at h
    · exact (continueFrom_done h).2
    · split at h
      · exact (continueFrom_done h).2
      · obtain rfl : _ = r := (StepOut.done.injEq _ _).mp h
        exact Nat.zero_le 1

theorem loopStep_done_none {f : ℚ → EvalR E} {prec : ℚ} {st : LoopState}
    {r : FindResult E} (h : loopStep f prec st = .done r) (he : r.err = none) :
    convergenceTest prec st.xLeft st.xRigth st.yRoot = true ∧
    r = ⟨st.xRoot, none, 1⟩ := by
  unfold loopStep at h
  split at h
  case isTrue hconv =>
    refine ⟨hconv, ?_⟩
    rcases hf : f st.xRoot with y | e | e <;> simp only [hf] at h <;>
        obtain rfl : _ = r := (StepOut.done.injEq _ _).mp h
    · rfl
    · exact absurd he (by simp)
    · exact absurd he (by simp)
  case isFalse =>
    exfalso
    split at h
    · obtain ⟨fe, hfe⟩ := (continueFrom_done h).1
      rw [he] at hfe
      exact Option.noConfusion hfe
    · split at h
      · obtain ⟨fe, hfe⟩ := (continueFrom_done h).1
        rw [he] at hfe
        exact Option.noConfusion hfe
      · obtain rfl : _ = r := (StepOut.done.injEq _ _).mp h
        exact absurd he (by simp)

theorem loopStep_next {f : ℚ → EvalR E} {prec : ℚ} {st st1 : LoopState}
    (h : loopStep f prec st = .next st1) :
    f st1.xRoot = .ok st1.yRoot ∧
    st1.xRoot = middle st1.xLeft st1.xRigth ∧
    st1.yRigth = st.yRigth ∧
    ((st1.xLeft = st.xLeft ∧ st1.xRigth = st.xRoot ∧ st1.yLeft = st.yLeft) ∨
     (st1.xLeft = st.xRoot ∧ st1.xRigth = st.xRigth ∧ st1.yLeft = st.yRoot)) := by
  unfold loopStep at h
  split at h
  · rcases hf : f st.xRoot with y | e | e <;> simp only [hf] at h <;>
      exact absurd h (by simp)
  · split at h
    · obtain ⟨y, hy, rfl⟩ := continueFrom_next h
      exact ⟨hy, rfl, rfl, .inl ⟨rfl, rfl, rfl⟩⟩
    · split at h
      · obtain ⟨y, hy, rfl⟩ := continueFrom_next h
        exact ⟨hy, rfl, rfl, .inr ⟨rfl, rfl, rfl⟩⟩
      · exact absurd h (by simp)

theorem loopInv_step {f : ℚ → EvalR E} {prec lo hi : ℚ} {st st1 : LoopState}
    (hI : LoopInv f lo hi st) (h : loopStep f prec st = .next st1) :
    LoopInv f lo hi st1 := by
  obtain ⟨h1, h2, h3, h4, _⟩ := hI
  obtain ⟨hok, hmid, _, hcase⟩ := loopStep_next h
  have hmm := middle_mem h2
  rw [← h4] at hmm
  rcases hcase with ⟨e1, e2, _⟩ | ⟨e1, e2, _⟩
  · exact ⟨e1 ▸ h1, by rw [e1, e2]; exact hmm.1,
      by rw [e2]; exact le_trans hmm.2 h3, hmid, hok⟩
  · exact ⟨by rw [e1]; exact le_trans h1 hmm.1,
      by rw [e1, e2]; exact hmm.2, e2 ▸ h3, hmid, hok⟩

theorem loopGo_calls (f : ℚ → EvalR E) (prec : ℚ) :
    ∀ fuel st, (loopGo f prec fuel st).calls ≤ fuel + 1 := by
  intro fuel
  induction fuel with
  | zero => intro st; simp [loopGo]
  | succ n ih =>
    intro st
    rw [loopGo]
    rcases hstep : loopStep f prec st with r | st1
    · simpa using le_trans (loopStep_done_calls hstep) (by omega)
    · simp only [addCalls]
      have := ih st1
      omega

theorem loopGo_none (f : ℚ → EvalR E) (prec lo hi : ℚ) :
    ∀ fuel st, LoopInv f lo hi st → (loopGo f prec fuel st).err = none →
      lo ≤ (loopGo f prec fuel st).root ∧ (loopGo f prec fuel st).root ≤ hi ∧
      ∃ y, f (loopGo f prec fuel st).root = EvalR.ok y ∧ y.absLt prec = true := by
  intro fuel
  induction fuel with
  | zero => intro st _ he; rw [loopGo] at he; exact absurd he (by simp)
  | succ n ih =>
    intro st hI he
    rw [loopGo] at he ⊢
    rcases hstep : loopStep f prec st with r | st1 <;> rw [hstep] at he
    · obtain ⟨hconv, rfl⟩ := loopStep_done_none hstep he
      obtain ⟨h1, h2, h3, h4, h5⟩ := hI
      have hmm := middle_mem h2
      rw [← h4] at hmm
      exact ⟨le_trans h1 hmm.1, le_trans hmm.2 h3, st.yRoot, h5,
        convergenceTest_absLt hconv⟩
    · exact ih st1 (loopInv_step hI hstep) he

theorem findWith_comm (f : ℚ → EvalR E) (a b prec : ℚ) (maxIter : ℕ) :
    FindWith f a b prec maxIter = FindWith f b a prec maxIter := by
  rcases lt_trichotomy a b with h | h | h
  · simp only [FindWith, gt_iff_lt, if_neg (not_lt.2 h.le), if_pos h]
  · subst h; rfl
  · simp only [FindWith, gt_iff_lt, if_neg (not_lt.2 h.le), if_pos h]

theorem findWith_none (f : ℚ → EvalR E) {a b : ℚ} (prec : ℚ) (maxIter : ℕ)
    (hab : a ≤ b) (he : (FindWith f a b prec maxIter).err = none) :
    a ≤ (FindWith f a b prec maxIter).root ∧
    (FindWith f a b prec maxIter).root ≤ b ∧
    ∃ y, f (FindWith f a b prec maxIter).root = EvalR.ok y ∧
      y.absLt prec = true := by
  simp only [FindWith, gt_iff_lt, if_neg (not_lt.2 hab)] at he ⊢
  rcases hL : f a with yL | eL | eL <;>
    rcases hM : f (middle a b) with yM | eM | eM <;>
    rcases hR : f b with yR | eR | eR <;>
    simp only [hL, hM, hR] at he ⊢ <;>
    try exact absurd he (by simp)
  by_cases hfl : yL.absLt prec = true
  · simp only [hfl, if_true] at he ⊢
    exact ⟨le_refl a, hab, yL, hL, hfl⟩
  · simp only [hfl, if_false] at he ⊢
    by_cases hfr : yR.absLt prec = true
    · simp only [hfr, if_true] at he ⊢
      exact ⟨hab, le_refl b, yR, hR, hfr⟩
    · simp only [hfr, if_false] at he ⊢
      exact loopGo_none f prec a b maxIter ⟨a, b, middle a b, yL, yM, yR⟩
        ⟨le_refl a, hab, le_refl b, rfl, hM⟩ he

theorem findWith_calls (f : ℚ → EvalR E) (a b prec : ℚ) (maxIter : ℕ) :
    (FindWith f a b prec maxIter).calls ≤ 3 + maxIter + 1 := by
  simp only [FindWith, gt_iff_lt]
  rcases hL : f (if b < a then b else a) with yL | eL | eL <;>
    rcases hM : f (middle (if b < a then b else a) (if b < a then a else b))
      with yM | eM | eM <;>
    rcases hR : f (if b < a then a else b) with yR | eR | eR <;>
    simp only [hL, hM, hR] <;>
    try omega
  split
  · show (4:ℕ) ≤ 3 + maxIter + 1
    omega
  · split
    · show (4:ℕ) ≤ 3 + maxIter + 1
      omega
    · have h := loopGo_calls f prec maxIter
        ⟨if b < a then b else a, if b < a then a else b,
          middle (if b < a then b else a) (if b < a then a else b), yL, yM, yR⟩
      show (loopGo f prec maxIter _).calls + 3 ≤ 3 + maxIter + 1
      omega

theorem isPanicked_iff {r : EvalR E} (h : r.isPanicked = true) :
    ∃ e, r = .panicked e := by
  cases r with
  | ok y => exact absurd h (by simp [EvalR.isPanicked])
  | fail e => exact absurd h (by simp [EvalR.isPanicked])
  | panicked e => exact ⟨e, rfl⟩

theorem isPanicked_false {r : EvalR E} (h : r.isPanicked = false) :
    (∃ y, r = .ok y) ∨ (∃ e, r = .fail e) := by
  cases r with
  | ok y => exact .inl ⟨y, rfl⟩
  | fail e => exact .inr ⟨e, rfl⟩
  | panicked e => exact absurd h (by simp [EvalR.isPanicked])

/-- C1: for every evaluator `f` and bounds `minX`, `maxX`, if `Find`
returns with a nil error then the returned root lies within the normalized
bounds (`min minX maxX ≤ r ≤ max minX maxX`) and `|f(r)| < Precision`. -/
theorem find_nil_error_gives_bracketed_precise_root (f : ℚ → EvalR E)
    (minX maxX : ℚ) (he : (Find f minX maxX).err = none) :
    min minX maxX ≤ (Find f minX maxX).root ∧
    (Find f minX maxX).root ≤ max minX maxX ∧
    ∃ y, f (Find f minX maxX).root = EvalR.ok y ∧ y.absLt Precision = true := by
  rcases le_total minX maxX with hab | hba
  · have h := findWith_none f Precision MaxIteration hab he
    rwa [min_eq_left hab, max_eq_right hab]
  · rw [show Find f minX maxX = FindWith f maxX minX Precision MaxIteration from
      findWith_comm f minX maxX Precision MaxIteration] at he ⊢
    have h := findWith_none f Precision MaxIteration hba he
    rwa [min_eq_right hba, max_eq_left hba]

theorem find_nil_error_gives_bracketed_precise_root_witness :
    (Find idF 0 10).err = none ∧
    min (0:ℚ) 10 ≤ (Find idF 0 10).root ∧
    (Find idF 0 10).root ≤ max (0:ℚ) 10 ∧
    ∃ y, idF (Find idF 0 10).root = EvalR.ok y ∧ y.absLt Precision = true := by
  have he : (Find idF 0 10).err = none := by with_unfolding_all decide
  exact ⟨he, find_nil_error_gives_bracketed_precise_root idF 0 10 he⟩

/-- C2: the claim states that on discarding the right half the right
sample's y-value becomes the value evaluated at the midpoint, keeping the
invariant `yRigth = f(xRigth)`.  The source self-assigns the y-value
(`xRigth, yRigth = xRoot, yRigth`), so after the first right-discard on
`f2` over `[0, 1]` the stored right sample is `(1/2, -1)` although
`f2(1/2) = +1`; the stale sign then makes the solver report InternalErr
("no root") even though `f2` changes sign on `[1/4, 1/2]`. -/
theorem find_right_sample_goes_stale_bug :
    loopStep f2 Precision ⟨0, 1, 1/2, .fin (-1), .fin 1, .fin (-1)⟩ =
      .next ⟨0, 1/2, 1/4, .fin (-1), .fin (-1), .fin (-1)⟩ ∧
    f2 (1/2) = .ok (.fin 1) ∧
    (F.fin 1 : F) ≠ .fin (-1) ∧
    f2 (1/4) = .ok (.fin (-1)) ∧
    Find f2 0 1 = ⟨0, some (.wrapped .internalErr none), 4⟩ := by
  refine ⟨?_, ?_, ?_, ?_, ?_⟩ <;> with_unfolding_all decide

/-- C3: an evaluator that panics never propagates the panic: `Find`
recovers it at the solver boundary and returns a Recovery-kind error. -/
theorem find_converts_panics_to_recovery (f : ℚ → EvalR E) (minX maxX : ℚ)
    (h : ∀ x, (f x).isPanicked = true) :
    Find f minX maxX = ⟨0, some (.wrapped .recovery none), 1⟩ := by
  obtain ⟨e1, he1⟩ := isPanicked_iff (h (if minX > maxX then maxX else minX))
  obtain ⟨e2, he2⟩ := isPanicked_iff
    (h (middle (if minX > maxX then maxX else minX)
      (if minX > maxX then minX else maxX)))
  obtain ⟨e3, he3⟩ := isPanicked_iff (h (if minX > maxX then minX else maxX))
  simp only [Find, FindWith, he1, he2, he3]

theorem find_converts_panics_to_recovery_witness :
    Find panicF 0 1 = ⟨0, some (.wrapped .recovery none), 1⟩ :=
  find_converts_panics_to_recovery panicF 0 1 (fun _ => rfl)

/-- C4: `Find f a b` and `Find f b a` produce the same result, because the
bounds are normalized by swapping before the search begins. -/
theorem find_order_independent (f : ℚ → EvalR E) (a b : ℚ) :
    Find f a b = Find f b a :=
  findWith_comm f a b Precision MaxIteration

/-- C5: a single call to `Find` invokes the evaluator at most
`3 + MaxIteration + 1` times. -/
theorem find_call_bound (f : ℚ → EvalR E) (minX maxX : ℚ) :
    (Find f minX maxX).calls ≤ 3 + MaxIteration + 1 :=
  findWith_calls f minX maxX Precision MaxIteration

/-- C6: when the sign bits of the three tracked samples all agree (and the
convergence test has not fired), the loop body aborts with an
InternalErr-kind error; in particular `Find` on `f(x) = 2x + 5` over
`[0, 1]` returns InternalErr rather than a root. -/
theorem loop_all_signs_agree_internal_err :
    (∀ (E : Type) (f : ℚ → EvalR E) (prec : ℚ) (st : LoopState),
        convergenceTest prec st.xLeft st.xRigth st.yRoot = false →
        st.yLeft.signbit = st.yRoot.signbit →
        st.yRoot.signbit = st.yRigth.signbit →
        loopStep f prec st = .done ⟨0, some (.wrapped .internalErr none), 0⟩) ∧
    Find linF 0 1 = ⟨0, some (.wrapped .internalErr none), 3⟩ := by
  constructor
  · intro E f prec st hconv h1 h2
    unfold loopStep
    rw [hconv, h1, h2]
    simp
  · with_unfolding_all decide

theorem loop_all_signs_agree_internal_err_witness :
    loopStep linF Precision ⟨0, 1, 1/2, .fin 5, .fin 6, .fin 7⟩ =
      .done ⟨0, some (.wrapped .internalErr none), 0⟩ :=
  loop_all_signs_agree_internal_err.1 Unit linF Precision
    ⟨0, 1, 1/2, .fin 5, .fin 6, .fin 7⟩ (by with_unfolding_all decide)
    (by with_unfolding_all decide) (by with_unfolding_all decide)

/-- C7: when the iteration count reaches the configured cap before the
convergence test succeeds (iteration budget exhausted), the loop returns a
MaximalIteration-kind error, whatever the state; concretely, a
never-converging sign-changing evaluator exhausts a cap of 2 and `FindWith`
reports MaximalIteration. -/
theorem loop_cap_returns_maximal_iteration :
    (∀ (E : Type) (f : ℚ → EvalR E) (prec : ℚ) (st : LoopState),
        loopGo f prec 0 st = ⟨0, some (.wrapped .maximalIteration none), 0⟩) ∧
    FindWith jumpF 0 2 Precision 2 =
      ⟨0, some (.wrapped .maximalIteration none), 5⟩ := by
  exact ⟨fun E f prec st => rfl, by with_unfolding_all decide⟩

/-- C8: inside the loop body, after the new midpoint is computed and `f`
evaluated there, a NaN or infinite y-value aborts immediately with a
NotValidValue-kind error (the x-value, an exact rational in this embedding,
can never be NaN or infinite, so its guard is vacuous). -/
theorem loop_nan_inf_midpoint_not_valid_value :
    ∀ (E : Type) (f : ℚ → EvalR E) (prec : ℚ) (st : LoopState) (y : F),
      convergenceTest prec st.xLeft st.xRigth st.yRoot = false →
      (y.isNaN = true ∨ y.isInf = true) →
      (((st.yLeft.signbit != st.yRoot.signbit) = true ∧
          f (middle st.xLeft st.xRoot) = .ok y) ∨
        ((st.yLeft.signbit != st.yRoot.signbit) = false ∧
          (st.yRoot.signbit != st.yRigth.signbit) = true ∧
          f (middle st.xRoot st.xRigth) = .ok y)) →
      loopStep f prec st = .done ⟨0, some (.wrapped .notValidValue none), 1⟩ := by
  intro E f prec st y hconv hbad hbr
  unfold loopStep
  rw [hconv]
  rcases hbr with ⟨hs, hok⟩ | ⟨hs1, hs2, hok⟩
  · rcases y with q | _ | neg
    · rcases hbad with h | h <;> simp [F.isNaN, F.isInf] at h
    · simp [hs, continueFrom, hok, F.isNaN, qIsNaN]
    · simp [hs, continueFrom, hok, F.isNaN, F.isInf, qIsNaN, qIsInf]
  · rcases y with q | _ | neg
    · rcases hbad with h | h <;> simp [F.isNaN, F.isInf] at h
    · simp [hs1, hs2, continueFrom, hok, F.isNaN, qIsNaN]
    · simp [hs1, hs2, continueFrom, hok, F.isNaN, F.isInf, qIsNaN, qIsInf]

theorem loop_nan_inf_midpoint_not_valid_value_witness :
    loopStep f8 Precision ⟨0, 1, 1/2, .fin (-1), .fin 1, .fin 1⟩ =
      .done ⟨0, some (.wrapped .notValidValue none), 1⟩ ∧
    Find f8 0 1 = ⟨0, some (.wrapped .notValidValue none), 4⟩ := by
  refine ⟨loop_nan_inf_midpoint_not_valid_value Unit f8 Precision _ F.nan
    (by with_unfolding_all decide) (Or.inl (by with_unfolding_all decide))
    (Or.inl ⟨by with_unfolding_all decide, by with_unfolding_all decide⟩), ?_⟩
  with_unfolding_all decide

/-- C9: the loop's convergence test succeeds exactly when
`|y(midpoint)| < Precision` and the bracket-width measure is below
`Precision`, the measure being the absolute width when the left endpoint is
exactly zero and the width relative to the left endpoint otherwise; and
when the test succeeds the loop breaks, treating the current midpoint as
the result (up to the final confirmatory evaluation). -/
theorem convergence_test_matches_spec :
    (∀ (prec xLeft xRigth : ℚ) (yRoot : F),
        convergenceTest prec xLeft xRigth yRoot =
          specConverged prec xLeft xRigth yRoot) ∧
    (∀ (E : Type) (f : ℚ → EvalR E) (prec : ℚ) (st : LoopState),
        convergenceTest prec st.xLeft st.xRigth st.yRoot = true →
        loopStep f prec st =
          match f st.xRoot with
          | .ok _ => .done ⟨st.xRoot, none, 1⟩
          | .fail e => .done ⟨st.xRoot, some (.native e), 1⟩
          | .panicked _ => .done ⟨st.xRoot, some (.wrapped .recovery none), 1⟩) := by
  constructor
  · intro prec xL xR y
    unfold convergenceTest specConverged
    by_cases h : xL = 0 <;> simp [h]
  · intro E f prec st hconv
    unfold loopStep
    rw [hconv]
    rcases hf : f st.xRoot with y | e | e <;> simp [hf]

theorem convergence_test_matches_spec_witness :
    loopStep (fun _ => (EvalR.ok (F.fin 0) : EvalR Unit)) 10
      ⟨0, 1/2, 1/4, .fin 1, .fin 0, .fin 1⟩ = .done ⟨1/4, none, 1⟩ :=
  convergence_test_matches_spec.2 Unit (fun _ => .ok (.fin 0)) 10
    ⟨0, 1/2, 1/4, .fin 1, .fin 0, .fin 1⟩ (by with_unfolding_all decide)

/-- C10: a failure returned by `f` at one of the three initial evaluation
points is surfaced as the evaluator's native error, not wrapped in an
ErrorFind, only after all three initial points have been evaluated
(3 evaluator calls), with the checks ordered left, right, midpoint; by
contrast, an evaluator failure at an in-loop midpoint is wrapped as an
InternalErr-kind error carrying the evaluator's error. -/
theorem find_error_propagation_order :
    (∀ (E : Type) (f : ℚ → EvalR E) (a b prec : ℚ) (maxIter : ℕ) (e : E),
        a ≤ b → f a = .fail e → (f (middle a b)).isPanicked = false →
        (f b).isPanicked = false →
        FindWith f a b prec maxIter = ⟨0, some (.native e), 3⟩) ∧
    (∀ (E : Type) (f : ℚ → EvalR E) (a b prec : ℚ) (maxIter : ℕ) (e : E) (yL : F),
        a ≤ b → f a = .ok yL → (f (middle a b)).isPanicked = false →
        f b = .fail e →
        FindWith f a b prec maxIter = ⟨0, some (.native e), 3⟩) ∧
    (∀ (E : Type) (f : ℚ → EvalR E) (a b prec : ℚ) (maxIter : ℕ) (e : E) (yL yR : F),
        a ≤ b → f a = .ok yL → f (middle a b) = .fail e → f b = .ok yR →
        FindWith f a b prec maxIter = ⟨0, some (.native e), 3⟩) ∧
    (∀ (E : Type) (f : ℚ → EvalR E) (prec : ℚ) (st : LoopState) (e : E),
        convergenceTest prec st.xLeft st.xRigth st.yRoot = false →
        (st.yLeft.signbit != st.yRoot.signbit) = true →
        f (middle st.xLeft st.xRoot) = .fail e →
        loopStep f prec st = .done ⟨0, some (.wrapped .internalErr (some e)), 1⟩) := by
  refine ⟨?_, ?_, ?_, ?_⟩
  · intro E f a b prec maxIter e hab hL hMp hRp
    rcases isPanicked_false hMp with ⟨yM, hM⟩ | ⟨eM, hM⟩ <;>
      rcases isPanicked_false hRp with ⟨yR, hR⟩ | ⟨eR, hR⟩ <;>
      simp only [FindWith, gt_iff_lt, if_neg (not_lt.2 hab), hL, hM, hR]
  · intro E f a b prec maxIter e yL hab hL hMp hR
    rcases isPanicked_false hMp with ⟨yM, hM⟩ | ⟨eM, hM⟩ <;>
      simp only [FindWith, gt_iff_lt, if_neg (not_lt.2 hab), hL, hM, hR]
  · intro E f a b prec maxIter e yL yR hab hL hM hR
    simp only [FindWith, gt_iff_lt, if_neg (not_lt.2 hab), hL, hM, hR]
  · intro E f prec st e hconv hs hok
    unfold loopStep
    rw [hconv]
    simp [hs, continueFrom, hok]

theorem find_error_propagation_order_witness :
    Find fLeft 0 1 = ⟨0, some (.native ()), 3⟩ ∧
    Find fRigth 0 1 = ⟨0, some (.native ()), 3⟩ ∧
    Find fCenter 0 1 = ⟨0, some (.native ()), 3⟩ ∧
    loopStep fLoopFail Precision ⟨0, 1, 1/2, .fin (-1), .fin 1, .fin 1⟩ =
      .done ⟨0, some (.wrapped .internalErr (some ())), 1⟩ := by
  refine ⟨
    find_error_propagation_order.1 Unit fLeft 0 1 Precision MaxIteration ()
      (by norm_num) (by with_unfolding_all decide) (by with_unfolding_all decide)
      (by with_unfolding_all decide),
    find_error_propagation_order.2.1 Unit fRigth 0 1 Precision MaxIteration ()
      (.fin 5) (by norm_num) (by with_unfolding_all decide)
      (by with_unfolding_all decide) (by with_unfolding_all decide),
    find_error_propagation_order.2.2.1 Unit fCenter 0 1 Precision MaxIteration ()
      (.fin 5) (.fin 7) (by norm_num) (by with_unfolding_all decide)
      (by with_unfolding_all decide) (by with_unfolding_all decide),
    find_error_propagation_order.2.2.2 Unit fLoopFail Precision _ ()
      (by with_unfolding_all decide) (by with_unfolding_all decide)
      (by with_unfolding_all decide)⟩

end RootGo
